import Mathlib

/-!
Shallow embedding of the Petlja/simple-survey backend.

The repository holds two implementations of the same survey service:
a raw-SQL variant (src/app.py, sqlite3) and an ORM variant
(src/simple_survey/app.py with src/simple_survey/models.py, SQLAlchemy,
wrapped in an application factory).  Both are modelled here over one
relational state type `DB`.  JSON request bodies are modelled by the
inductive type `Json`; a stored `response_data` column holds the parsed
document itself (the source stores `json.dumps(data)` and parses it back
with `json.loads` on export; serialisation is injective, so keeping the
document is faithful).  Timestamps are naturals supplied by the caller
(the source calls `datetime.utcnow()` / `datetime.now(timezone.utc)`).
-/

/-- A JSON document, as parsed by `request.get_json()`. Numbers are
modelled as integers; the claims only ever involve the number 0. -/
inductive Json where
  | null : Json
  | bool : Bool → Json
  | num : Int → Json
  | str : String → Json
  | arr : List Json → Json
  | obj : List (String × Json) → Json

/-- Python truthiness of a parsed JSON value: `None`, `False`, `0`, `""`,
`[]` and the empty dict are falsy, everything else truthy.  This is the
test performed by `if not data:` in both submission handlers. -/
def Json.truthy : Json → Bool
  | .null => false
  | .bool b => b
  | .num n => n != 0
  | .str s => s != ""
  | .arr xs => !xs.isEmpty
  | .obj kvs => !kvs.isEmpty

/-- A row of the `participants` table: `token TEXT PRIMARY KEY`,
`label TEXT NOT NULL`, `created_at` timestamp. -/
structure ParticipantRow where
  token : String
  label : String
  created_at : Nat
deriving Repr, DecidableEq

/-- A row of the `responses` table: `token` (foreign key to
`participants.token`, declared UNIQUE), `response_data` (the stored
answers document), `submitted_at` timestamp.  The sqlite `id` column is
an autoincrement surrogate key with no behavioural role and is omitted. -/
structure ResponseRow where
  token : String
  response_data : Json
  submitted_at : Nat

/-- The relational state: the two tables, each as a list of rows in
insertion order. -/
structure DB where
  participants : List ParticipantRow
  responses : List ResponseRow

/-- The empty database produced by schema creation on a fresh file. -/
def DB.empty : DB := ⟨[], []⟩

/-- Embeds `find_participant` (both variants): look the token up in the
participants table, returning the row if present. -/
def find_participant (db : DB) (token : String) : Option ParticipantRow :=
  db.participants.find? (fun p => p.token == token)

/-- Embeds `is_completed` (both variants): true iff some response row
exists for the token. -/
def is_completed (db : DB) (token : String) : Bool :=
  db.responses.any (fun r => r.token == token)

/-- Outcome of a submission request, tagged by the HTTP error it maps
to in the source: 404 "Invalid token", 409 "Survey already completed",
400 "No data provided", 200 with status ok, or an uncaught database
error surfacing as a generic 500. -/
inductive SubmitResult where
  | notFound : SubmitResult
  | conflict : SubmitResult
  | noData : SubmitResult
  | ok : SubmitResult
  | serverError : SubmitResult
deriving Repr, DecidableEq

/-- Embeds `SurveySubmit.post` of the raw-SQL variant (src/app.py):
resolve the participant (404 if absent), then `is_completed` (409 if a
response exists), then the body check (`data = request.get_json()`;
400 if `not data`), then INSERT the new response row.  `body = none`
models a missing or unparsable request body. -/
def submitRaw (db : DB) (token : String) (body : Option Json) (now : Nat) :
    SubmitResult × DB :=
  match find_participant db token with
  | none => (.notFound, db)
  | some _ =>
    if is_completed db token then (.conflict, db)
    else
      match body with
      | none => (.noData, db)
      | some data =>
        if !data.truthy then (.noData, db)
        else (.ok, { db with responses := db.responses ++ [⟨token, data, now⟩] })

/-- Replaces the first response row for `token` with the new document and
timestamp, leaving every other row untouched: the effect of mutating the
row returned by `query(Response).filter_by(token=token).first()` and
committing. -/
def overwriteResponse (rs : List ResponseRow) (token : String) (data : Json)
    (now : Nat) : List ResponseRow :=
  match rs with
  | [] => []
  | r :: rest =>
    if r.token == token then { r with response_data := data, submitted_at := now } :: rest
    else r :: overwriteResponse rest token data now

/-- Embeds `SurveySubmit.post` of the ORM variant
(src/simple_survey/app.py): resolve the participant (404 if absent),
then the body check (400 if `not data`), then fetch the existing
response; if present, overwrite its `response_data` and refresh
`submitted_at`, otherwise insert a new row. -/
def submitOrm (db : DB) (token : String) (body : Option Json) (now : Nat) :
    SubmitResult × DB :=
  match find_participant db token with
  | none => (.notFound, db)
  | some _ =>
    match body with
    | none => (.noData, db)
    | some data =>
      if !data.truthy then (.noData, db)
      else
        match db.responses.find? (fun r => r.token == token) with
        | some _ => (.ok, { db with responses := overwriteResponse db.responses token data now })
        | none => (.ok, { db with responses := db.responses ++ [⟨token, data, now⟩] })

/-- Outcome of the admin gate around a protected handler: 500 when the
admin token is not configured, 401 on a credential mismatch, or the
wrapped handler's value. -/
inductive GateResult (α : Type) where
  | misconfigured : GateResult α
  | unauthorized : GateResult α
  | ok : α → GateResult α
deriving Repr, DecidableEq

/-- Value of the module-level `ADMIN_TOKEN = os.environ.get("ADMIN_TOKEN", "")`
(identical in both variants): the environment variable's value, or the
empty string when the variable is unset. -/
def adminTokenFromEnv (env : Option String) : String := env.getD ""

/-- Embeds the `require_admin` decorator (identical in both variants):
if `not ADMIN_TOKEN` (i.e. the configured secret is the empty string),
answer 500 without touching the handler; otherwise read the
Authorization header (absent header reads as the empty string) and
compare it, by plain string equality, against the exact string
"Bearer " followed by the secret; any mismatch answers 401, an exact
match invokes the wrapped handler. -/
def require_admin {α : Type} (adminToken : String) (authHeader : Option String)
    (handler : Unit → α) : GateResult α :=
  if adminToken == "" then .misconfigured
  else
    let auth := authHeader.getD ""
    if auth != "Bearer " ++ adminToken then .unauthorized
    else .ok (handler ())

/-- Outcome of the admin delete of a participant: 404 when the token is
unknown, otherwise 204 with no body. -/
inductive DeleteResult where
  | notFound : DeleteResult
  | noContent : DeleteResult
deriving Repr, DecidableEq

/-- Embeds `ParticipantItem.delete` of the raw-SQL variant (src/app.py):
check the token exists (404 if not), then in one transaction DELETE the
response rows for the token and the participant row, and commit.  The
ORM variant deletes the participant and cascades to its response,
yielding the same state transformation. -/
def deleteParticipant (db : DB) (token : String) : DeleteResult × DB :=
  match find_participant db token with
  | none => (.notFound, db)
  | some _ =>
    (.noContent,
      { participants := db.participants.filter (fun p => !(p.token == token)),
        responses := db.responses.filter (fun r => !(r.token == token)) })

/-- One entry of the participants seed document: a token/label pair. -/
structure SeedEntry where
  token : String
  label : String
deriving Repr, DecidableEq

/-- Folds the seed entries into the database the way both variants do:
for each entry in order, insert the participant unless a row with that
token is already present (raw variant: INSERT OR IGNORE; ORM variant: a
`session.get` existence check before `session.add`). -/
def seedParticipants (db : DB) (seed : List SeedEntry) (now : Nat) : DB :=
  seed.foldl
    (fun acc p =>
      if acc.participants.any (fun q => q.token == p.token) then acc
      else { acc with participants := acc.participants ++ [⟨p.token, p.label, now⟩] })
    db

/-- Embeds `init_db` (both variants): ensure the tables exist (a no-op
on the state), count the participants, and only when the table is empty
and a seed document is present insert its entries.  `seedDoc = none`
models an absent seed file. -/
def init_db (db : DB) (seedDoc : Option (List SeedEntry)) (now : Nat) : DB :=
  if db.participants.length == 0 then
    match seedDoc with
    | some seed => seedParticipants db seed now
    | none => db
  else db

/-- A database write error surfaced by sqlite3 / SQLAlchemy when a
constraint is violated at commit time. -/
inductive DBErr where
  | integrityError : DBErr
deriving Repr, DecidableEq

/-- Embeds an INSERT into `responses` under the unique index
`idx_responses_token` (raw variant) / the `unique=True` column constraint
(ORM variant): the insert fails with an IntegrityError when a row for the
same token is already committed. -/
def insertResponse (rs : List ResponseRow) (row : ResponseRow) :
    Except DBErr (List ResponseRow) :=
  if rs.any (fun r => r.token == row.token) then .error .integrityError
  else .ok (rs ++ [row])

/-- The raw-SQL submission handler with its read and its commit
separated, modelling the concurrency window of spec section 5: the
existence checks run against the state the handler read (`dbAtCheck`),
while the INSERT commits against the state current at commit time
(`dbAtInsert`), which may meanwhile contain a response committed by a
concurrent request.  The handler wraps the execute/commit in no
try/except, so an IntegrityError escapes as a generic 500 and the
transaction does not commit. -/
def submitRawRaced (dbAtCheck dbAtInsert : DB) (token : String)
    (body : Option Json) (now : Nat) : SubmitResult × DB :=
  match find_participant dbAtCheck token with
  | none => (.notFound, dbAtInsert)
  | some _ =>
    if is_completed dbAtCheck token then (.conflict, dbAtInsert)
    else
      match body with
      | none => (.noData, dbAtInsert)
      | some data =>
        if !data.truthy then (.noData, dbAtInsert)
        else
          match insertResponse dbAtInsert.responses ⟨token, data, now⟩ with
          | .error _ => (.serverError, dbAtInsert)
          | .ok rs => (.ok, { dbAtInsert with responses := rs })

/-- The ORM submission handler with its read and its commit separated,
as for `submitRawRaced`: the `first()` lookup sees `dbAtCheck`; when it
sees no existing response the handler adds a new row and commits against
`dbAtInsert`, where the unique constraint may reject it.  No exception
handling exists around the commit. -/
def submitOrmRaced (dbAtCheck dbAtInsert : DB) (token : String)
    (body : Option Json) (now : Nat) : SubmitResult × DB :=
  match find_participant dbAtCheck token with
  | none => (.notFound, dbAtInsert)
  | some _ =>
    match body with
    | none => (.noData, dbAtInsert)
    | some data =>
      if !data.truthy then (.noData, dbAtInsert)
      else
        match dbAtCheck.responses.find? (fun r => r.token == token) with
        | some _ =>
          (.ok, { dbAtInsert with responses := overwriteResponse dbAtInsert.responses token data now })
        | none =>
          match insertResponse dbAtInsert.responses ⟨token, data, now⟩ with
          | .error _ => (.serverError, dbAtInsert)
          | .ok rs => (.ok, { dbAtInsert with responses := rs })

/-- Embeds `ParticipantList.post` (both variants): insert a participant
row with a freshly generated uuid4 token and the given label; under the
PRIMARY KEY constraint an insert of an already-present token fails and
leaves the table unchanged. -/
def createParticipant (db : DB) (token label : String) (now : Nat) : DB :=
  if db.participants.any (fun p => p.token == token) then db
  else { db with participants := db.participants ++ [⟨token, label, now⟩] }

/-- Embeds `ParticipantItem.put` (both variants): replace the label of
the participant carrying the token; when the token is unknown the
handler answers 404 and the state is unchanged. -/
def updateLabel (db : DB) (token label : String) : DB :=
  { db with participants :=
      db.participants.map (fun p =>
        if p.token == token then { p with label := label } else p) }

/-- One state-changing API operation of either variant. -/
inductive Op where
  | create : String → String → Nat → Op
  | update : String → String → Op
  | delete : String → Op
  | submitR : String → Option Json → Nat → Op
  | submitO : String → Option Json → Nat → Op
  | seed : Option (List SeedEntry) → Nat → Op

/-- The state transformation performed by one operation (the HTTP
result is dropped; on error paths the handlers leave the state as it
was). -/
def applyOp (db : DB) : Op → DB
  | .create tk lbl now => createParticipant db tk lbl now
  | .update tk lbl => updateLabel db tk lbl
  | .delete tk => (deleteParticipant db tk).2
  | .submitR tk body now => (submitRaw db tk body now).2
  | .submitO tk body now => (submitOrm db tk body now).2
  | .seed doc now => init_db db doc now

/-- Database states reachable from the freshly created schema by any
sequence of API operations. -/
inductive Reachable : DB → Prop
  | empty : Reachable DB.empty
  | step (db : DB) (op : Op) : Reachable db → Reachable (applyOp db op)

/-- Tokens of the participant rows, in table order. -/
def pTokens (db : DB) : List String := db.participants.map (fun p => p.token)

/-- Tokens of the response rows, in table order. -/
def rTokens (db : DB) : List String := db.responses.map (fun r => r.token)

/-- No string occurs twice in the list. -/
def nodupTokens : List String → Bool
  | [] => true
  | t :: rest => !(rest.contains t) && nodupTokens rest

/-- The spec's data-model invariant: every response token names an
existing participant row, and no token carries two response rows. -/
def Invariant (db : DB) : Bool :=
  (rTokens db).all (fun t => (pTokens db).contains t) && nodupTokens (rTokens db)

/-- Every stored answers document is truthy: an empty object, an empty
array, 0, false or null never sits in `response_data`. -/
def storedTruthy (db : DB) : Bool :=
  db.responses.all (fun r => r.response_data.truthy)

/-- Example state: one participant "a" labelled "Alice", no responses. -/
def dbA : DB := ⟨[⟨"a", "Alice", 0⟩], []⟩

/-- Example state: participant "a" with a stored response. -/
def dbAC : DB := ⟨[⟨"a", "Alice", 0⟩], [⟨"a", Json.str "yes", 1⟩]⟩

/-! Helper lemmas about lists, tokens and the table operations. -/

lemma contains_iff_mem (l : List String) (t : String) :
    l.contains t = true ↔ t ∈ l := List.elem_iff

lemma contains_eq_false_iff (l : List String) (t : String) :
    l.contains t = false ↔ t ∉ l := by
  rw [← Bool.not_eq_true, contains_iff_mem]

lemma list_all_imp {α : Type} {p q : α → Bool} (l : List α)
    (h : ∀ a ∈ l, p a = true → q a = true) :
    l.all p = true → l.all q = true := by
  simp only [List.all_eq_true]
  intro hp a ha
  exact h a ha (hp a ha)

lemma contains_append_left (l1 l2 : List String) (t : String)
    (h : l1.contains t = true) : (l1 ++ l2).contains t = true := by
  rw [contains_iff_mem] at h ⊢
  exact List.mem_append_left _ h

lemma contains_append_self (l : List String) (t : String) :
    (l ++ [t]).contains t = true := by
  rw [contains_iff_mem]
  exact List.mem_append_right _ (List.mem_singleton.mpr rfl)

lemma contains_filter_of_mem (l : List String) (q : String → Bool) (t : String)
    (hm : l.contains t = true) (hq : q t = true) :
    (l.filter q).contains t = true := by
  rw [contains_iff_mem] at hm ⊢
  exact List.mem_filter.mpr ⟨hm, hq⟩

lemma contains_of_contains_filter (l : List String) (q : String → Bool)
    (t : String) (h : (l.filter q).contains t = true) : l.contains t = true := by
  rw [contains_iff_mem] at h ⊢
  exact (List.mem_filter.mp h).1

lemma nodupTokens_filter (l : List String) (q : String → Bool)
    (h : nodupTokens l = true) : nodupTokens (l.filter q) = true := by
  induction l with
  | nil => rfl
  | cons x xs ih =>
    rw [nodupTokens, Bool.and_eq_true, Bool.not_eq_true'] at h
    rw [List.filter_cons]
    by_cases hq : q x = true
    · simp only [hq, if_true]
      rw [nodupTokens, Bool.and_eq_true, Bool.not_eq_true']
      refine ⟨?_, ih h.2⟩
      rw [contains_eq_false_iff] at h ⊢
      intro hc
      exact h.1 (List.mem_of_mem_filter hc)
    · simp only [Bool.not_eq_true] at hq
      simp only [hq, Bool.false_eq_true, if_false]
      exact ih h.2

lemma nodupTokens_append_single (l : List String) (t : String)
    (h : nodupTokens l = true) (hn : l.contains t = false) :
    nodupTokens (l ++ [t]) = true := by
  induction l with
  | nil => simp [nodupTokens]
  | cons x xs ih =>
    rw [nodupTokens, Bool.and_eq_true, Bool.not_eq_true'] at h
    rw [contains_eq_false_iff] at hn
    have hxt : x ≠ t := by
      intro hc
      exact hn (hc ▸ List.mem_cons_self x xs)
    have hxs : xs.contains t = false := by
      rw [contains_eq_false_iff]
      intro hc
      exact hn (List.mem_cons_of_mem x hc)
    rw [List.cons_append, nodupTokens, Bool.and_eq_true, Bool.not_eq_true']
    refine ⟨?_, ih h.2 hxs⟩
    rw [contains_eq_false_iff] at h ⊢
    rw [List.mem_append, List.mem_singleton]
    rintro (hc | hc)
    · exact h.1 hc
    · exact hxt hc

lemma map_filter_comm {α β : Type} (l : List α) (f : α → β) (q : β → Bool) :
    (l.filter (fun a => q (f a))).map f = (l.map f).filter q := by
  induction l with
  | nil => rfl
  | cons x xs ih =>
    rw [List.map_cons, List.filter_cons, List.filter_cons]
    by_cases hq : q (f x) = true
    · simp only [hq, if_true, List.map_cons, ih]
    · simp only [Bool.not_eq_true] at hq
      simp only [hq, Bool.false_eq_true, if_false, ih]

lemma any_token_iff_contains (l : List ParticipantRow) (t : String) :
    l.any (fun p => p.token == t) = true ↔
      (l.map (fun p => p.token)).contains t = true := by
  rw [contains_iff_mem]
  simp only [List.any_eq_true, List.mem_map, beq_iff_eq]

lemma any_rtoken_iff_contains (l : List ResponseRow) (t : String) :
    l.any (fun r => r.token == t) = true ↔
      (l.map (fun r => r.token)).contains t = true := by
  rw [contains_iff_mem]
  simp only [List.any_eq_true, List.mem_map, beq_iff_eq]

lemma find_participant_isSome_contains (db : DB) (t : String)
    (h : (find_participant db t).isSome = true) :
    (pTokens db).contains t = true := by
  rw [find_participant, List.find?_isSome] at h
  rcases h with ⟨p, hp, he⟩
  rw [beq_iff_eq] at he
  rw [contains_iff_mem, pTokens]
  exact List.mem_map.mpr ⟨p, hp, he⟩

lemma overwrite_map_token (rs : List ResponseRow) (tk : String) (d : Json)
    (n : Nat) :
    (overwriteResponse rs tk d n).map (fun r => r.token) =
      rs.map (fun r => r.token) := by
  induction rs with
  | nil => rfl
  | cons r rest ih =>
    rw [overwriteResponse]
    by_cases h : (r.token == tk) = true
    · simp only [h, if_true, List.map_cons]
    · simp only [Bool.not_eq_true] at h
      simp only [h, Bool.false_eq_true, if_false, List.map_cons, ih]

lemma overwrite_all_truthy (rs : List ResponseRow) (tk : String) (d : Json)
    (n : Nat) (hall : rs.all (fun r => r.response_data.truthy) = true)
    (hd : d.truthy = true) :
    (overwriteResponse rs tk d n).all (fun r => r.response_data.truthy) = true := by
  induction rs with
  | nil => rfl
  | cons r rest ih =>
    rw [List.all_cons, Bool.and_eq_true] at hall
    rw [overwriteResponse]
    by_cases h : (r.token == tk) = true
    · simp only [h, if_true, List.all_cons, Bool.and_eq_true]
      exact ⟨hd, hall.2⟩
    · simp only [Bool.not_eq_true] at h
      simp only [h, Bool.false_eq_true, if_false, List.all_cons, Bool.and_eq_true]
      exact ⟨hall.1, ih hall.2⟩

lemma rTokens_create (db : DB) (tk lbl : String) (n : Nat) :
    rTokens (createParticipant db tk lbl n) = rTokens db := by
  rw [createParticipant]
  split <;> rfl

lemma pTokens_create_mono (db : DB) (tk lbl : String) (n : Nat) (t : String)
    (h : (pTokens db).contains t = true) :
    (pTokens (createParticipant db tk lbl n)).contains t = true := by
  rw [createParticipant]
  split
  · exact h
  · rw [pTokens, List.map_append]
    exact contains_append_left _ _ _ h

lemma pTokens_update (db : DB) (tk lbl : String) :
    pTokens (updateLabel db tk lbl) = pTokens db := by
  rw [pTokens, updateLabel]
  simp only [List.map_map]
  refine List.map_congr_left ?_
  intro p _
  simp only [Function.comp]
  split <;> rfl

lemma rTokens_update (db : DB) (tk lbl : String) :
    rTokens (updateLabel db tk lbl) = rTokens db := rfl

lemma seed_responses (l : List SeedEntry) (db : DB) (n : Nat) :
    (seedParticipants db l n).responses = db.responses := by
  induction l generalizing db with
  | nil => rfl
  | cons e rest ih =>
    simp only [seedParticipants, List.foldl_cons] at ih ⊢
    rw [ih]
    split <;> rfl

lemma seed_pTokens_ex (l : List SeedEntry) (db : DB) (n : Nat) :
    ∃ tl, pTokens (seedParticipants db l n) = pTokens db ++ tl := by
  induction l generalizing db with
  | nil => exact ⟨[], by rw [List.append_nil]; rfl⟩
  | cons e rest ih =>
    simp only [seedParticipants, List.foldl_cons] at ih ⊢
    by_cases h : db.participants.any (fun q => q.token == e.token) = true
    · simp only [h, if_true]
      exact ih db
    · simp only [Bool.not_eq_true] at h
      simp only [h, Bool.false_eq_true, if_false]
      rcases ih { db with participants := db.participants ++ [⟨e.token, e.label, n⟩] }
        with ⟨tl, htl⟩
      refine ⟨e.token :: tl, ?_⟩
      rw [htl, pTokens, List.map_append]
      simp [pTokens]

lemma seed_pTokens_mono (l : List SeedEntry) (db : DB) (n : Nat) (t : String)
    (h : (pTokens db).contains t = true) :
    (pTokens (seedParticipants db l n)).contains t = true := by
  rcases seed_pTokens_ex l db n with ⟨tl, htl⟩
  rw [htl]
  exact contains_append_left _ _ _ h

lemma is_completed_false_contains (db : DB) (tk : String)
    (h : is_completed db tk = false) : (rTokens db).contains tk = false := by
  rw [is_completed] at h
  by_contra hc
  rw [Bool.not_eq_false, rTokens, ← any_rtoken_iff_contains] at hc
  rw [hc] at h
  cases h

lemma find_response_none_contains (db : DB) (tk : String)
    (h : db.responses.find? (fun r => r.token == tk) = none) :
    (rTokens db).contains tk = false := by
  rw [List.find?_eq_none] at h
  rw [contains_eq_false_iff, rTokens]
  intro hc
  rcases List.mem_map.mp hc with ⟨r, hr, he⟩
  exact h r hr (by rw [beq_iff_eq]; exact he)

lemma invariant_insert (db : DB) (tk : String) (d : Json) (n : Nat)
    (h : Invariant db = true)
    (hp : (pTokens db).contains tk = true)
    (hc : (rTokens db).contains tk = false) :
    Invariant { db with responses := db.responses ++ [⟨tk, d, n⟩] } = true := by
  rw [Invariant, Bool.and_eq_true] at h
  have hr : rTokens { db with responses := db.responses ++ [⟨tk, d, n⟩] } =
      rTokens db ++ [tk] := by
    rw [rTokens, rTokens]
    simp [List.map_append]
  have hpp : pTokens { db with responses := db.responses ++ [⟨tk, d, n⟩] } =
      pTokens db := rfl
  rw [Invariant, Bool.and_eq_true, hr, hpp]
  constructor
  · rw [List.all_append, Bool.and_eq_true]
    refine ⟨h.1, ?_⟩
    simp only [List.all_cons, List.all_nil, Bool.and_true]
    exact hp
  · exact nodupTokens_append_single _ _ h.2 hc

lemma invariant_overwrite (db : DB) (tk : String) (d : Json) (n : Nat)
    (h : Invariant db = true) :
    Invariant { db with responses := overwriteResponse db.responses tk d n } = true := by
  have hr : rTokens { db with responses := overwriteResponse db.responses tk d n } =
      rTokens db := overwrite_map_token db.responses tk d n
  have hpp : pTokens { db with responses := overwriteResponse db.responses tk d n } =
      pTokens db := rfl
  rw [Invariant, Bool.and_eq_true] at h
  rw [Invariant, Bool.and_eq_true, hr, hpp]
  exact h

lemma invariant_create (db : DB) (tk lbl : String) (n : Nat)
    (h : Invariant db = true) :
    Invariant (createParticipant db tk lbl n) = true := by
  rw [Invariant, Bool.and_eq_true] at h
  rw [Invariant, Bool.and_eq_true, rTokens_create]
  refine ⟨?_, h.2⟩
  refine list_all_imp _ ?_ h.1
  intro t _ ht
  exact pTokens_create_mono db tk lbl n t ht

lemma invariant_update (db : DB) (tk lbl : String)
    (h : Invariant db = true) : Invariant (updateLabel db tk lbl) = true := by
  rw [Invariant, pTokens_update, rTokens_update]
  rw [Invariant] at h
  exact h

lemma invariant_delete (db : DB) (tk : String)
    (h : Invariant db = true) : Invariant (deleteParticipant db tk).2 = true := by
  cases hf : find_participant db tk with
  | none => simp only [deleteParticipant, hf]; exact h
  | some p =>
    simp only [deleteParticipant, hf]
    rw [Invariant, Bool.and_eq_true] at h
    have hpp : pTokens
        { participants := db.participants.filter (fun p => !(p.token == tk)),
          responses := db.responses.filter (fun r => !(r.token == tk)) } =
        (pTokens db).filter (fun t => !(t == tk)) :=
      map_filter_comm db.participants (fun p => p.token) (fun t => !(t == tk))
    have hrr : rTokens
        { participants := db.participants.filter (fun p => !(p.token == tk)),
          responses := db.responses.filter (fun r => !(r.token == tk)) } =
        (rTokens db).filter (fun t => !(t == tk)) :=
      map_filter_comm db.responses (fun r => r.token) (fun t => !(t == tk))
    rw [Invariant, Bool.and_eq_true, hpp, hrr]
    constructor
    · rw [List.all_eq_true]
      intro t ht
      rcases List.mem_filter.mp ht with ⟨htm, htq⟩
      have hcont : (pTokens db).contains t = true := by
        rw [List.all_eq_true] at h
        exact h.1 t htm
      exact contains_filter_of_mem _ _ _ hcont htq
    · exact nodupTokens_filter _ _ h.2

lemma invariant_submitRaw (db : DB) (tk : String) (body : Option Json) (n : Nat)
    (h : Invariant db = true) : Invariant (submitRaw db tk body n).2 = true := by
  cases hf : find_participant db tk with
  | none => simp only [submitRaw, hf]; exact h
  | some p =>
    by_cases hc : is_completed db tk = true
    · have he : (submitRaw db tk body n).2 = db := by simp [submitRaw, hf, hc]
      rw [he]; exact h
    · rw [Bool.not_eq_true] at hc
      cases body with
      | none =>
        have he : (submitRaw db tk none n).2 = db := by simp [submitRaw, hf, hc]
        rw [he]; exact h
      | some d =>
        by_cases hd : d.truthy = true
        · have he : (submitRaw db tk (some d) n).2 =
              { db with responses := db.responses ++ [⟨tk, d, n⟩] } := by
            simp [submitRaw, hf, hc, hd]
          rw [he]
          refine invariant_insert db tk d n h ?_ ?_
          · exact find_participant_isSome_contains db tk (by rw [hf]; rfl)
          · exact is_completed_false_contains db tk hc
        · rw [Bool.not_eq_true] at hd
          have he : (submitRaw db tk (some d) n).2 = db := by
            simp [submitRaw, hf, hc, hd]
          rw [he]; exact h

lemma invariant_submitOrm (db : DB) (tk : String) (body : Option Json) (n : Nat)
    (h : Invariant db = true) : Invariant (submitOrm db tk body n).2 = true := by
  cases hf : find_participant db tk with
  | none => simp only [submitOrm, hf]; exact h
  | some p =>
    cases body with
    | none =>
      have he : (submitOrm db tk none n).2 = db := by simp [submitOrm, hf]
      rw [he]; exact h
    | some d =>
      by_cases hd : d.truthy = true
      · cases he2 : db.responses.find? (fun r => r.token == tk) with
        | some r =>
          have he : (submitOrm db tk (some d) n).2 =
              { db with responses := overwriteResponse db.responses tk d n } := by
            simp [submitOrm, hf, hd, he2]
          rw [he]
          exact invariant_overwrite db tk d n h
        | none =>
          have he : (submitOrm db tk (some d) n).2 =
              { db with responses := db.responses ++ [⟨tk, d, n⟩] } := by
            simp [submitOrm, hf, hd, he2]
          rw [he]
          refine invariant_insert db tk d n h ?_ ?_
          · exact find_participant_isSome_contains db tk (by rw [hf]; rfl)
          · exact find_response_none_contains db tk he2
      · rw [Bool.not_eq_true] at hd
        have he : (submitOrm db tk (some d) n).2 = db := by
          simp [submitOrm, hf, hd]
        rw [he]; exact h

lemma invariant_init_db (db : DB) (doc : Option (List SeedEntry)) (n : Nat)
    (h : Invariant db = true) : Invariant (init_db db doc n) = true := by
  cases doc with
  | none =>
    have he : init_db db none n = db := by simp [init_db]
    rw [he]; exact h
  | some seed =>
    by_cases hn : (db.participants.length == 0) = true
    · have he : init_db db (some seed) n = seedParticipants db seed n := by
        simp [init_db, hn]
      rw [he]
      rw [Invariant, Bool.and_eq_true] at h
      have hr : rTokens (seedParticipants db seed n) = rTokens db := by
        rw [rTokens, rTokens, seed_responses]
      rw [Invariant, Bool.and_eq_true, hr]
      constructor
      · refine list_all_imp _ ?_ h.1
        intro t _ ht
        exact seed_pTokens_mono seed db n t ht
      · exact h.2
    · rw [Bool.not_eq_true] at hn
      have he : init_db db (some seed) n = db := by simp [init_db, hn]
      rw [he]; exact h

lemma invariant_step (db : DB) (op : Op) (h : Invariant db = true) :
    Invariant (applyOp db op) = true := by
  cases op with
  | create tk lbl n => exact invariant_create db tk lbl n h
  | update tk lbl => exact invariant_update db tk lbl h
  | delete tk => exact invariant_delete db tk h
  | submitR tk body n => exact invariant_submitRaw db tk body n h
  | submitO tk body n => exact invariant_submitOrm db tk body n h
  | seed doc n => exact invariant_init_db db doc n h

lemma list_all_filter {α : Type} (l : List α) (p q : α → Bool)
    (h : l.all p = true) : (l.filter q).all p = true := by
  rw [List.all_eq_true] at h ⊢
  intro a ha
  exact h a (List.mem_filter.mp ha).1

lemma storedTruthy_insert (db : DB) (tk : String) (d : Json) (n : Nat)
    (h : storedTruthy db = true) (hd : d.truthy = true) :
    storedTruthy { db with responses := db.responses ++ [⟨tk, d, n⟩] } = true := by
  rw [storedTruthy] at h
  rw [storedTruthy]
  show (db.responses ++ [(⟨tk, d, n⟩ : ResponseRow)]).all
      (fun r => r.response_data.truthy) = true
  rw [List.all_append, Bool.and_eq_true]
  exact ⟨h, by simp [hd]⟩

lemma storedTruthy_step (db : DB) (op : Op) (h : storedTruthy db = true) :
    storedTruthy (applyOp db op) = true := by
  cases op with
  | create tk lbl n =>
    have he : (createParticipant db tk lbl n).responses = db.responses := by
      rw [createParticipant]
      split <;> rfl
    show (createParticipant db tk lbl n).responses.all _ = true
    rw [he]
    exact h
  | update tk lbl => exact h
  | delete tk =>
    cases hf : find_participant db tk with
    | none => simp only [applyOp, deleteParticipant, hf]; exact h
    | some p =>
      simp only [applyOp, deleteParticipant, hf]
      exact list_all_filter _ _ _ h
  | submitR tk body n =>
    show storedTruthy (submitRaw db tk body n).2 = true
    cases hf : find_participant db tk with
    | none => simp only [submitRaw, hf]; exact h
    | some p =>
      by_cases hc : is_completed db tk = true
      · have he : (submitRaw db tk body n).2 = db := by simp [submitRaw, hf, hc]
        rw [he]; exact h
      · rw [Bool.not_eq_true] at hc
        cases body with
        | none =>
          have he : (submitRaw db tk none n).2 = db := by simp [submitRaw, hf, hc]
          rw [he]; exact h
        | some d =>
          by_cases hd : d.truthy = true
          · have he : (submitRaw db tk (some d) n).2 =
                { db with responses := db.responses ++ [⟨tk, d, n⟩] } := by
              simp [submitRaw, hf, hc, hd]
            rw [he]
            exact storedTruthy_insert db tk d n h hd
          · rw [Bool.not_eq_true] at hd
            have he : (submitRaw db tk (some d) n).2 = db := by
              simp [submitRaw, hf, hc, hd]
            rw [he]; exact h
  | submitO tk body n =>
    show storedTruthy (submitOrm db tk body n).2 = true
    cases hf : find_participant db tk with
    | none => simp only [submitOrm, hf]; exact h
    | some p =>
      cases body with
      | none =>
        have he : (submitOrm db tk none n).2 = db := by simp [submitOrm, hf]
        rw [he]; exact h
      | some d =>
        by_cases hd : d.truthy = true
        · cases he2 : db.responses.find? (fun r => r.token == tk) with
          | some r =>
            have he : (submitOrm db tk (some d) n).2 =
                { db with responses := overwriteResponse db.responses tk d n } := by
              simp [submitOrm, hf, hd, he2]
            rw [he]
            exact overwrite_all_truthy db.responses tk d n h hd
          | none =>
            have he : (submitOrm db tk (some d) n).2 =
                { db with responses := db.responses ++ [⟨tk, d, n⟩] } := by
              simp [submitOrm, hf, hd, he2]
            rw [he]
            exact storedTruthy_insert db tk d n h hd
        · rw [Bool.not_eq_true] at hd
          have he : (submitOrm db tk (some d) n).2 = db := by
            simp [submitOrm, hf, hd]
          rw [he]; exact h
  | seed doc n =>
    cases doc with
    | none =>
      have he : init_db db none n = db := by simp [init_db]
      show storedTruthy (init_db db none n) = true
      rw [he]; exact h
    | some seed =>
      show storedTruthy (init_db db (some seed) n) = true
      by_cases hn : (db.participants.length == 0) = true
      · have he : init_db db (some seed) n = seedParticipants db seed n := by
          simp [init_db, hn]
        rw [he]
        show (seedParticipants db seed n).responses.all _ = true
        rw [seed_responses]
        exact h
      · rw [Bool.not_eq_true] at hn
        have he : init_db db (some seed) n = db := by simp [init_db, hn]
        rw [he]; exact h

lemma overwrite_append_fresh (rs : List ResponseRow) (tk : String)
    (d0 dNew : Json) (n0 nNew : Nat)
    (hno : ∀ r ∈ rs, (r.token == tk) = false) :
    overwriteResponse (rs ++ [⟨tk, d0, n0⟩]) tk dNew nNew =
      rs ++ [⟨tk, dNew, nNew⟩] := by
  induction rs with
  | nil =>
    simp only [List.nil_append, overwriteResponse]
    rw [if_pos (beq_self_eq_true tk)]
  | cons r rest ih =>
    have hr : (r.token == tk) = false := hno r (List.mem_cons_self r rest)
    rw [List.cons_append, overwriteResponse, if_neg (by simp [hr]), List.cons_append]
    rw [ih (fun x hx => hno x (List.mem_cons_of_mem r hx))]

lemma overwrite_overwrite (rs : List ResponseRow) (tk : String)
    (d1 d2 : Json) (n1 n2 : Nat) :
    overwriteResponse (overwriteResponse rs tk d1 n1) tk d2 n2 =
      overwriteResponse rs tk d2 n2 := by
  induction rs with
  | nil => rfl
  | cons r rest ih =>
    by_cases hr : (r.token == tk) = true
    · rw [overwriteResponse, if_pos hr, overwriteResponse, if_pos hr,
        overwriteResponse, if_pos hr]
    · rw [Bool.not_eq_true] at hr
      rw [overwriteResponse, if_neg (by simp [hr]), overwriteResponse,
        if_neg (by simp [hr]), overwriteResponse, if_neg (by simp [hr]), ih]

lemma overwrite_filter_single (rs : List ResponseRow) (tk : String)
    (d : Json) (n : Nat)
    (hnd : nodupTokens (rs.map (fun r => r.token)) = true)
    (hex : rs.any (fun r => r.token == tk) = true) :
    (overwriteResponse rs tk d n).filter (fun r => r.token == tk) =
      [⟨tk, d, n⟩] := by
  induction rs with
  | nil => cases hex
  | cons r rest ih =>
    rw [List.map_cons, nodupTokens, Bool.and_eq_true, Bool.not_eq_true'] at hnd
    by_cases hr : (r.token == tk) = true
    · rw [overwriteResponse, if_pos hr, List.filter_cons_of_pos (by exact hr)]
      have htk : r.token = tk := beq_iff_eq.mp hr
      have hrest : rest.filter (fun x => x.token == tk) = [] := by
        rw [List.filter_eq_nil_iff]
        intro x hx hc
        have hxtk : x.token = tk := beq_iff_eq.mp hc
        have hmem : (rest.map (fun r => r.token)).contains r.token = true := by
          rw [contains_iff_mem]
          exact List.mem_map.mpr ⟨x, hx, by rw [hxtk, htk]⟩
        rw [hmem] at hnd
        cases hnd.1
      rw [hrest]
      have : ({ r with response_data := d, submitted_at := n } : ResponseRow) =
          (⟨tk, d, n⟩ : ResponseRow) := by
        rw [show ({ r with response_data := d, submitted_at := n } : ResponseRow) =
          (⟨r.token, d, n⟩ : ResponseRow) from rfl, htk]
      rw [this]
    · rw [Bool.not_eq_true] at hr
      rw [overwriteResponse, if_neg (by simp [hr]),
        List.filter_cons_of_neg (by simp [hr])]
      refine ih hnd.2 ?_
      rw [List.any_cons, hr, Bool.false_or] at hex
      exact hex

lemma seed_cons (db : DB) (x : SeedEntry) (xs : List SeedEntry) (n : Nat) :
    seedParticipants db (x :: xs) n =
      seedParticipants
        (if db.participants.any (fun q => q.token == x.token) then db
         else { db with participants := db.participants ++ [⟨x.token, x.label, n⟩] })
        xs n := rfl

lemma seed_contains_all (l : List SeedEntry) (db : DB) (n : Nat) :
    ∀ e ∈ l, (pTokens (seedParticipants db l n)).contains e.token = true := by
  induction l generalizing db with
  | nil => intro e he; cases he
  | cons x xs ih =>
    intro e he
    rw [seed_cons]
    rcases List.mem_cons.mp he with he | he
    · subst he
      by_cases hx : db.participants.any (fun q => q.token == e.token) = true
      · rw [if_pos hx]
        refine seed_pTokens_mono xs _ n e.token ?_
        rw [pTokens, ← any_token_iff_contains]
        exact hx
      · rw [Bool.not_eq_true] at hx
        rw [if_neg (by simp [hx])]
        refine seed_pTokens_mono xs _ n e.token ?_
        have : pTokens { db with participants :=
            db.participants ++ [⟨e.token, e.label, n⟩] } =
            pTokens db ++ [e.token] := by
          rw [pTokens, pTokens]
          simp [List.map_append]
        rw [this]
        exact contains_append_self _ _
    · by_cases hx : db.participants.any (fun q => q.token == x.token) = true
      · rw [if_pos hx]
        exact ih db e he
      · rw [Bool.not_eq_true] at hx
        rw [if_neg (by simp [hx])]
        exact ih _ e he

lemma seed_nodup (l : List SeedEntry) (db : DB) (n : Nat)
    (h : nodupTokens (pTokens db) = true) :
    nodupTokens (pTokens (seedParticipants db l n)) = true := by
  induction l generalizing db with
  | nil => exact h
  | cons x xs ih =>
    rw [seed_cons]
    by_cases hx : db.participants.any (fun q => q.token == x.token) = true
    · rw [if_pos hx]
      exact ih db h
    · rw [Bool.not_eq_true] at hx
      rw [if_neg (by simp [hx])]
      refine ih _ ?_
      have hp : pTokens { db with participants :=
          db.participants ++ [⟨x.token, x.label, n⟩] } =
          pTokens db ++ [x.token] := by
        rw [pTokens, pTokens]
        simp [List.map_append]
      rw [hp]
      refine nodupTokens_append_single _ _ h ?_
      by_contra hc
      rw [Bool.not_eq_false, pTokens, ← any_token_iff_contains] at hc
      rw [hc] at hx
      cases hx

lemma seed_cons_ne_nil (db : DB) (e : SeedEntry) (l : List SeedEntry) (n : Nat)
    (h : db.participants = []) :
    (seedParticipants db (e :: l) n).participants ≠ [] := by
  rw [seed_cons]
  have hx : db.participants.any (fun q => q.token == e.token) = false := by
    rw [h]; rfl
  rw [if_neg (by simp [hx])]
  intro hc
  rcases seed_pTokens_ex l { db with participants :=
      db.participants ++ [⟨e.token, e.label, n⟩] } n with ⟨tl, htl⟩
  have hnil : pTokens (seedParticipants { db with participants :=
      db.participants ++ [⟨e.token, e.label, n⟩] } l n) = [] := by
    rw [pTokens, hc]
    rfl
  rw [hnil] at htl
  have : pTokens { db with participants :=
      db.participants ++ [⟨e.token, e.label, n⟩] } = [e.token] := by
    rw [pTokens, h]
    rfl
  rw [this] at htl
  cases htl

lemma init_db_of_ne_nil (db : DB) (doc : Option (List SeedEntry)) (n : Nat)
    (h : db.participants ≠ []) : init_db db doc n = db := by
  have hlen : (db.participants.length == 0) = false := by
    rw [Bool.eq_false_iff]
    intro hc
    rw [beq_iff_eq, List.length_eq_zero] at hc
    exact h hc
  cases doc <;> simp [init_db, hlen]

/-! Claim theorems. -/

/-- C1: in every reachable database state, each Response row's token is
the token of an existing Participant row and no token carries two
Response rows; the invariant is preserved by every operation
(participant create/update/delete, submission in either variant,
seeding). -/
theorem C1_response_invariant :
    (∀ db : DB, Reachable db → Invariant db = true) ∧
    (∀ (db : DB) (op : Op), Invariant db = true →
      Invariant (applyOp db op) = true) := by
  constructor
  · intro db h
    induction h with
    | empty => rfl
    | step db op hr ih => exact invariant_step db op ih
  · exact invariant_step

/-- Witness for C1 at concrete states: a create followed by a raw
submission from the empty schema, and a delete applied to an
invariant-satisfying state. -/
theorem C1_witness :
    Invariant (applyOp (applyOp DB.empty (Op.create "a" "Alice" 0))
      (Op.submitR "a" (some (Json.str "yes")) 1)) = true ∧
    Invariant (applyOp dbAC (Op.delete "a")) = true :=
  ⟨C1_response_invariant.1 _
      (Reachable.step _ _ (Reachable.step _ _ Reachable.empty)),
    C1_response_invariant.2 dbAC (Op.delete "a") (by decide)⟩

/-- C2 counterexample: in the raw-SQL variant the duplicate check runs
before the body check, so an already-completed participant posting an
empty body receives Conflict (409), not the claimed
ValidationError (400). -/
theorem C2_counterexample :
    (find_participant dbAC "a").isSome = true ∧
    is_completed dbAC "a" = true ∧
    submitRaw dbAC "a" none 2 = (SubmitResult.conflict, dbAC) ∧
    SubmitResult.conflict ≠ SubmitResult.noData :=
  ⟨by decide, by decide, rfl, by decide⟩

/-- C2 amended: the ORM variant checks the body before the duplicate
check, answering 400 for an empty/missing body regardless of
completion; the raw-SQL variant checks `is_completed` first, so an
existing not-yet-completed participant gets 400 on an empty body while
an already-completed one gets 409. -/
theorem C2_empty_body_order :
    (∀ (db : DB) (tk : String) (now : Nat),
      (find_participant db tk).isSome = true →
      submitOrm db tk none now = (SubmitResult.noData, db)) ∧
    (∀ (db : DB) (tk : String) (now : Nat),
      (find_participant db tk).isSome = true → is_completed db tk = false →
      submitRaw db tk none now = (SubmitResult.noData, db)) ∧
    (∀ (db : DB) (tk : String) (body : Option Json) (now : Nat),
      (find_participant db tk).isSome = true → is_completed db tk = true →
      submitRaw db tk body now = (SubmitResult.conflict, db)) := by
  refine ⟨?_, ?_, ?_⟩
  · intro db tk now hp
    obtain ⟨p, hf⟩ := Option.isSome_iff_exists.mp hp
    simp [submitOrm, hf]
  · intro db tk now hp hc
    obtain ⟨p, hf⟩ := Option.isSome_iff_exists.mp hp
    simp [submitRaw, hf, hc]
  · intro db tk body now hp hc
    obtain ⟨p, hf⟩ := Option.isSome_iff_exists.mp hp
    simp [submitRaw, hf, hc]

/-- Witness for C2 amended at concrete states. -/
theorem C2_witness :
    submitOrm dbAC "a" none 3 = (SubmitResult.noData, dbAC) ∧
    submitRaw dbA "a" none 3 = (SubmitResult.noData, dbA) ∧
    submitRaw dbAC "a" none 3 = (SubmitResult.conflict, dbAC) :=
  ⟨C2_empty_body_order.1 dbAC "a" 3 (by decide),
    C2_empty_body_order.2.1 dbA "a" 3 (by decide) (by decide),
    C2_empty_body_order.2.2 dbAC "a" none 3 (by decide) (by decide)⟩

/-- C3: with no admin secret configured every protected call answers
ServerMisconfigured (500) without invoking the handler; with a secret
configured, any Authorization header differing from the exact string
"Bearer " ++ secret (including an absent header, read as "") answers
Unauthorized (401), and only the exact match invokes the wrapped
handler. -/
theorem C3_admin_gate (α : Type) (secret : String) (header : Option String)
    (handler : Unit → α) :
    (secret = "" →
      require_admin secret header handler = GateResult.misconfigured) ∧
    (secret ≠ "" → header.getD "" ≠ "Bearer " ++ secret →
      require_admin secret header handler = GateResult.unauthorized) ∧
    (secret ≠ "" → header.getD "" = "Bearer " ++ secret →
      require_admin secret header handler = GateResult.ok (handler ())) := by
  refine ⟨?_, ?_, ?_⟩
  · intro hs
    simp [require_admin, hs]
  · intro hs hm
    simp [require_admin, beq_iff_eq, bne_iff_ne, hs, hm]
  · intro hs hm
    simp [require_admin, beq_iff_eq, bne_iff_ne, hs, hm]

/-- Witness for C3 at concrete inputs: unset secret, absent header, and
an exact match. -/
theorem C3_witness :
    require_admin "" (some "Bearer s") (fun _ => (0 : Nat)) =
      GateResult.misconfigured ∧
    require_admin "s" none (fun _ => (0 : Nat)) = GateResult.unauthorized ∧
    require_admin "s" (some "Bearer s") (fun _ => (0 : Nat)) =
      GateResult.ok 0 :=
  ⟨(C3_admin_gate Nat "" (some "Bearer s") (fun _ => 0)).1 rfl,
    (C3_admin_gate Nat "s" none (fun _ => 0)).2.1 (by decide) (by decide),
    (C3_admin_gate Nat "s" (some "Bearer s") (fun _ => 0)).2.2 (by decide)
      (by decide)⟩

/-- C5: in the raw-SQL (reject-duplicates) variant, a submission for a
token that already has a Response fails with Conflict
("Survey already completed", 409) and leaves the database — in
particular the first Response's response_data and submitted_at —
unchanged. -/
theorem C5_reject_duplicate (db : DB) (tk : String) (body : Option Json)
    (now : Nat) (hp : (find_participant db tk).isSome = true)
    (hc : is_completed db tk = true) :
    submitRaw db tk body now = (SubmitResult.conflict, db) := by
  obtain ⟨p, hf⟩ := Option.isSome_iff_exists.mp hp
  simp [submitRaw, hf, hc]

/-- Witness for C5 at a concrete completed state. -/
theorem C5_witness :
    submitRaw dbAC "a" (some (Json.str "x")) 9 =
      (SubmitResult.conflict, dbAC) :=
  C5_reject_duplicate dbAC "a" (some (Json.str "x")) 9 (by decide) (by decide)

/-- C9: the submission emptiness test is Python falsiness of the parsed
body, so an existing participant posting valid JSON that parses to the
empty object, empty array, false, 0 or null receives
ValidationError (400) in both variants (the raw variant when not yet
completed), and consequently no reachable state stores a falsy answers
document — an empty-object answer set is never stored. -/
theorem C9_falsy_rejected :
    (Json.obj []).truthy = false ∧
    (Json.arr []).truthy = false ∧
    (Json.bool false).truthy = false ∧
    (Json.num 0).truthy = false ∧
    (Json.null).truthy = false ∧
    (∀ (db : DB) (tk : String) (now : Nat) (d : Json),
      (find_participant db tk).isSome = true → d.truthy = false →
      submitOrm db tk (some d) now = (SubmitResult.noData, db)) ∧
    (∀ (db : DB) (tk : String) (now : Nat) (d : Json),
      (find_participant db tk).isSome = true → is_completed db tk = false →
      d.truthy = false →
      submitRaw db tk (some d) now = (SubmitResult.noData, db)) ∧
    (∀ db : DB, Reachable db → storedTruthy db = true) := by
  refine ⟨rfl, rfl, rfl, by decide, rfl, ?_, ?_, ?_⟩
  · intro db tk now d hp hd
    obtain ⟨p, hf⟩ := Option.isSome_iff_exists.mp hp
    simp [submitOrm, hf, hd]
  · intro db tk now d hp hc hd
    obtain ⟨p, hf⟩ := Option.isSome_iff_exists.mp hp
    simp [submitRaw, hf, hc, hd]
  · intro db h
    induction h with
    | empty => rfl
    | step db op hr ih => exact storedTruthy_step db op ih

/-- Witness for C9 at concrete states. -/
theorem C9_witness :
    submitOrm dbA "a" (some (Json.obj [])) 5 = (SubmitResult.noData, dbA) ∧
    submitRaw dbA "a" (some (Json.num 0)) 5 = (SubmitResult.noData, dbA) ∧
    storedTruthy (applyOp DB.empty (Op.create "a" "Alice" 0)) = true :=
  ⟨C9_falsy_rejected.2.2.2.2.2.1 dbA "a" 5 (Json.obj []) (by decide) rfl,
    C9_falsy_rejected.2.2.2.2.2.2.1 dbA "a" 5 (Json.num 0) (by decide)
      (by decide) (by decide),
    C9_falsy_rejected.2.2.2.2.2.2.2 _ (Reachable.step _ _ Reachable.empty)⟩

/-- C10: an admin secret configured as the empty string behaves exactly
like an unset secret — the gate tests falsiness, so every protected
call answers ServerMisconfigured (500), and no Authorization header,
including exactly "Bearer ", ever reaches the wrapped handler. -/
theorem C10_empty_secret_unconfigured (α : Type) (header : Option String)
    (handler : Unit → α) :
    adminTokenFromEnv (some "") = adminTokenFromEnv none ∧
    require_admin (adminTokenFromEnv (some "")) header handler =
      GateResult.misconfigured ∧
    require_admin (adminTokenFromEnv (some "")) (some "Bearer ") handler =
      GateResult.misconfigured := by
  refine ⟨rfl, ?_, ?_⟩ <;> simp [require_admin, adminTokenFromEnv]

/-- C6: evaluated at the concrete race of spec section 5 — the handler's
checks saw a state with no response for the token, but a concurrent
response for it committed before the handler's own insert — both
variants surface the IntegrityError as a generic 500 (serverError):
no code path catches the uniqueness violation and translates it into
the Conflict/overwrite outcome the claim describes. -/
theorem C6_race_uncaught_error :
    submitRawRaced dbA dbAC "a" (some (Json.obj [("q1", Json.str "yes")])) 2 =
      (SubmitResult.serverError, dbAC) ∧
    submitOrmRaced dbA dbAC "a" (some (Json.obj [("q1", Json.str "yes")])) 2 =
      (SubmitResult.serverError, dbAC) ∧
    SubmitResult.serverError ≠ SubmitResult.conflict ∧
    SubmitResult.serverError ≠ SubmitResult.ok :=
  ⟨rfl, rfl, by decide, by decide⟩

/-- C7: an admin delete of an existing token answers 204 with no body
and removes, in one transaction, the Participant row and every Response
row for the token while keeping all other rows, after which
participant lookup, the survey page's lookup and submission for that
token answer NotFound; a delete of an unknown token answers NotFound
and leaves the database unchanged. -/
theorem C7_delete_cascades (db : DB) (tk : String) :
    (find_participant db tk = none →
      deleteParticipant db tk = (DeleteResult.notFound, db)) ∧
    ((find_participant db tk).isSome = true →
      (deleteParticipant db tk).1 = DeleteResult.noContent ∧
      find_participant (deleteParticipant db tk).2 tk = none ∧
      is_completed (deleteParticipant db tk).2 tk = false ∧
      (∀ (body : Option Json) (now : Nat),
        submitRaw (deleteParticipant db tk).2 tk body now =
          (SubmitResult.notFound, (deleteParticipant db tk).2)) ∧
      (∀ q ∈ db.participants, q.token ≠ tk →
        q ∈ (deleteParticipant db tk).2.participants) ∧
      (∀ r ∈ db.responses, r.token ≠ tk →
        r ∈ (deleteParticipant db tk).2.responses)) := by
  constructor
  · intro hf
    simp [deleteParticipant, hf]
  · intro hp
    obtain ⟨p, hf⟩ := Option.isSome_iff_exists.mp hp
    have hd : deleteParticipant db tk = (DeleteResult.noContent,
        ⟨db.participants.filter (fun q => !(q.token == tk)),
          db.responses.filter (fun r => !(r.token == tk))⟩) := by
      simp [deleteParticipant, hf]
    rw [hd]
    have hfp : find_participant
        (⟨db.participants.filter (fun q => !(q.token == tk)),
          db.responses.filter (fun r => !(r.token == tk))⟩ : DB) tk = none := by
      rw [find_participant, List.find?_eq_none]
      intro x hx
      have hxf := (List.mem_filter.mp hx).2
      rw [Bool.not_eq_true'] at hxf
      simp [hxf]
    refine ⟨rfl, hfp, ?_, ?_, ?_, ?_⟩
    · rw [is_completed, List.any_eq_false]
      intro x hx
      have hxf := (List.mem_filter.mp hx).2
      rw [Bool.not_eq_true'] at hxf
      simp [hxf]
    · intro body now
      simp [submitRaw, hfp]
    · intro q hq hne
      refine List.mem_filter.mpr ⟨hq, ?_⟩
      simp [hne]
    · intro r hr hne
      refine List.mem_filter.mpr ⟨hr, ?_⟩
      simp [hne]

/-- Witness for C7 at concrete states: an unknown token and an existing
one. -/
theorem C7_witness :
    deleteParticipant dbAC "zz" = (DeleteResult.notFound, dbAC) ∧
    (deleteParticipant dbAC "a").1 = DeleteResult.noContent ∧
    find_participant (deleteParticipant dbAC "a").2 "a" = none :=
  ⟨(C7_delete_cascades dbAC "zz").1 rfl,
    ((C7_delete_cascades dbAC "a").2 (by decide)).1,
    ((C7_delete_cascades dbAC "a").2 (by decide)).2.1⟩

/-- C8: bootstrap seeding is idempotent — against a non-empty
Participant table `init_db` changes nothing, so running it twice equals
running it once; from an empty table with a seed document present every
seed entry's token ends up present, no token is inserted twice, and the
responses table is untouched. -/
theorem C8_seeding_idempotent :
    (∀ (db : DB) (doc : Option (List SeedEntry)) (now : Nat),
      db.participants ≠ [] → init_db db doc now = db) ∧
    (∀ (db : DB) (doc : Option (List SeedEntry)) (now now2 : Nat),
      init_db (init_db db doc now) doc now2 = init_db db doc now) ∧
    (∀ (db : DB) (seed : List SeedEntry) (now : Nat),
      db.participants = [] →
      (∀ e ∈ seed,
        (pTokens (init_db db (some seed) now)).contains e.token = true) ∧
      nodupTokens (pTokens (init_db db (some seed) now)) = true ∧
      (init_db db (some seed) now).responses = db.responses) := by
  refine ⟨init_db_of_ne_nil, ?_, ?_⟩
  · intro db doc now now2
    by_cases h : db.participants = []
    · cases doc with
      | none =>
        have h1 : init_db db none now = db := by simp [init_db]
        have h2 : init_db db none now2 = db := by simp [init_db]
        rw [h1, h2]
      | some seed =>
        cases seed with
        | nil =>
          have h1 : init_db db (some []) now = db := by
            simp [init_db, seedParticipants]
          have h2 : init_db db (some []) now2 = db := by
            simp [init_db, seedParticipants]
          rw [h1, h2]
        | cons e rest =>
          have h1 : init_db db (some (e :: rest)) now =
              seedParticipants db (e :: rest) now := by
            simp [init_db, h]
          have hne : (init_db db (some (e :: rest)) now).participants ≠ [] := by
            rw [h1]
            exact seed_cons_ne_nil db e rest now h
          exact init_db_of_ne_nil _ _ _ hne
    · rw [init_db_of_ne_nil db doc now h, init_db_of_ne_nil db doc now2 h]
  · intro db seed now h
    have h1 : init_db db (some seed) now = seedParticipants db seed now := by
      simp [init_db, h]
    rw [h1]
    refine ⟨seed_contains_all seed db now, ?_, seed_responses seed db now⟩
    refine seed_nodup seed db now ?_
    rw [pTokens, h]
    rfl

/-- Witness for C8 at concrete states: a non-empty table ignores the
seed document, a duplicated seed from the empty table is idempotent, and
a seeded token is present. -/
theorem C8_witness :
    init_db dbAC (some [⟨"b", "Bob"⟩]) 5 = dbAC ∧
    init_db (init_db DB.empty (some [⟨"b", "Bob"⟩, ⟨"b", "Bobby"⟩]) 0)
      (some [⟨"b", "Bob"⟩, ⟨"b", "Bobby"⟩]) 1 =
      init_db DB.empty (some [⟨"b", "Bob"⟩, ⟨"b", "Bobby"⟩]) 0 ∧
    (pTokens (init_db DB.empty (some [⟨"b", "Bob"⟩]) 0)).contains "b" = true :=
  ⟨C8_seeding_idempotent.1 dbAC (some [⟨"b", "Bob"⟩]) 5 (by decide),
    C8_seeding_idempotent.2.1 DB.empty (some [⟨"b", "Bob"⟩, ⟨"b", "Bobby"⟩]) 0 1,
    (C8_seeding_idempotent.2.2 DB.empty [⟨"b", "Bob"⟩] 0 rfl).1 ⟨"b", "Bob"⟩
      (by decide)⟩

/-- C4: in the ORM (overwrite) variant, submitting valid non-empty
bodies twice for an existing participant answers ok both times and
leaves exactly one Response row for the token, holding the second
payload with its submitted_at refreshed to the second (later, given
t1 ≤ t2) timestamp. -/
theorem C4_overwrite_twice (db : DB) (tk : String) (d1 d2 : Json)
    (t1 t2 : Nat) (hp : (find_participant db tk).isSome = true)
    (hnd : nodupTokens (rTokens db) = true)
    (h1 : d1.truthy = true) (h2 : d2.truthy = true) (hle : t1 ≤ t2) :
    (submitOrm db tk (some d1) t1).1 = SubmitResult.ok ∧
    (submitOrm (submitOrm db tk (some d1) t1).2 tk (some d2) t2).1 =
      SubmitResult.ok ∧
    ((submitOrm (submitOrm db tk (some d1) t1).2 tk
      (some d2) t2).2.responses.filter (fun r => r.token == tk)) =
      [⟨tk, d2, t2⟩] ∧
    max t1 t2 = t2 := by
  have hmax : max t1 t2 = t2 := Nat.max_eq_right hle
  obtain ⟨p, hf⟩ := Option.isSome_iff_exists.mp hp
  cases he : db.responses.find? (fun r => r.token == tk) with
  | none =>
    have hno : ∀ r ∈ db.responses, (r.token == tk) = false := by
      rw [List.find?_eq_none] at he
      intro r hr
      have := he r hr
      rwa [Bool.not_eq_true] at this
    have heq1 : submitOrm db tk (some d1) t1 = (SubmitResult.ok,
        { db with responses := db.responses ++ [⟨tk, d1, t1⟩] }) := by
      simp [submitOrm, hf, h1, he]
    rw [heq1]
    have hf2 : find_participant
        { db with responses := db.responses ++ [⟨tk, d1, t1⟩] } tk = some p := hf
    have hfind2 : ({ db with responses :=
        db.responses ++ [⟨tk, d1, t1⟩] } : DB).responses.find?
        (fun r => r.token == tk) = some ⟨tk, d1, t1⟩ := by
      show (db.responses ++ [(⟨tk, d1, t1⟩ : ResponseRow)]).find?
        (fun r => r.token == tk) = some ⟨tk, d1, t1⟩
      rw [List.find?_append, he, Option.none_or]
      exact List.find?_cons_of_pos _ (by simp)
    have heq2 : submitOrm
        { db with responses := db.responses ++ [⟨tk, d1, t1⟩] } tk
        (some d2) t2 =
        (SubmitResult.ok,
          { db with
            responses := overwriteResponse
              (db.responses ++ [⟨tk, d1, t1⟩]) tk d2 t2 }) := by
      simp [submitOrm, hf2, h2, hfind2]
    rw [heq2]
    refine ⟨rfl, rfl, ?_, hmax⟩
    show (overwriteResponse (db.responses ++ [(⟨tk, d1, t1⟩ : ResponseRow)])
        tk d2 t2).filter (fun r => r.token == tk) = [⟨tk, d2, t2⟩]
    rw [overwrite_append_fresh db.responses tk d1 d2 t1 t2 hno,
      List.filter_append]
    have hfil : db.responses.filter (fun r => r.token == tk) = [] := by
      rw [List.filter_eq_nil_iff]
      intro r hr hc
      rw [hno r hr] at hc
      cases hc
    rw [hfil, List.nil_append]
    simp
  | some r0 =>
    have hex : db.responses.any (fun r => r.token == tk) = true := by
      rw [List.any_eq_true]
      exact ⟨r0, List.mem_of_find?_eq_some he, by simpa using List.find?_some he⟩
    have heq1 : submitOrm db tk (some d1) t1 = (SubmitResult.ok,
        { db with responses := overwriteResponse db.responses tk d1 t1 }) := by
      simp [submitOrm, hf, h1, he]
    rw [heq1]
    have hf2 : find_participant
        { db with responses := overwriteResponse db.responses tk d1 t1 } tk =
        some p := hf
    have hany2 : (overwriteResponse db.responses tk d1 t1).any
        (fun r => r.token == tk) = true := by
      rw [any_rtoken_iff_contains, overwrite_map_token,
        ← any_rtoken_iff_contains]
      exact hex
    cases hfind2 : (overwriteResponse db.responses tk d1 t1).find?
        (fun r => r.token == tk) with
    | none =>
      exfalso
      rw [List.find?_eq_none] at hfind2
      rw [List.any_eq_true] at hany2
      rcases hany2 with ⟨r', hr', hp'⟩
      exact hfind2 r' hr' hp'
    | some r' =>
      have heq2 : submitOrm
          { db with responses := overwriteResponse db.responses tk d1 t1 } tk
          (some d2) t2 =
          (SubmitResult.ok,
            { db with
              responses := overwriteResponse
                (overwriteResponse db.responses tk d1 t1) tk d2 t2 }) := by
        simp [submitOrm, hf2, h2, hfind2]
      rw [heq2]
      refine ⟨rfl, rfl, ?_, hmax⟩
      show (overwriteResponse (overwriteResponse db.responses tk d1 t1)
          tk d2 t2).filter (fun r => r.token == tk) = [⟨tk, d2, t2⟩]
      rw [overwrite_overwrite]
      exact overwrite_filter_single db.responses tk d2 t2 hnd hex

/-- Witness for C4 at a concrete state: two truthy submissions for the
sole participant. -/
theorem C4_witness :
    ((submitOrm (submitOrm dbA "a" (some (Json.str "x")) 3).2 "a"
      (some (Json.str "y")) 4).2.responses.filter
      (fun r => r.token == "a")) = [⟨"a", Json.str "y", 4⟩] :=
  (C4_overwrite_twice dbA "a" (Json.str "x") (Json.str "y") 3 4 (by decide)
    (by decide) (by decide) (by decide) (by decide)).2.2.1

/-- Witness for C10 at a concrete header. -/
theorem C10_witness :
    require_admin (adminTokenFromEnv (some "")) (some "Bearer ")
      (fun _ => (0 : Nat)) = GateResult.misconfigured :=
  (C10_empty_secret_unconfigured Nat (some "Bearer ") (fun _ => 0)).2.2
